import Mathlib

/-!
Shallow embedding of the firmware `Electrothon_29th_Aug.ino` (Mood & Memory
Assistant for Arduino Nano) and verification of its specification claims.

Modelling conventions:
* `millis()` timestamps are natural numbers; the firmware computes elapsed
  time with 32-bit unsigned subtraction (`unsigned long` on AVR), embedded
  here as `elapsed` with an explicit `% 2^32`.
* `int` on the AVR target is 16 bits, so the date code
  `ymd = year*10000 + month*100 + day` wraps modulo 2^16; two stored date
  codes are equal exactly when their `% 65536` residues are equal, so the
  field is embedded as that residue.
* Blocking I/O (LCD writes, beeps, reader commands) is embedded as emitted
  action lists; the mutable globals of the sketch are threaded explicitly.
-/

/-- Width of `unsigned long` arithmetic on the target (32 bits). -/
def U32 : Nat := 2 ^ 32

/-- The 32-bit unsigned subtraction `now - last` the sketch uses on
`millis()` values. -/
def elapsed (now last : Nat) : Nat := (now + U32 - last % U32) % U32

/-- `const unsigned long DEBOUNCE_MS = 200;` -/
def DEBOUNCE_MS : Nat := 200

/-- The fields of `RTClib`'s `DateTime` that the sketch reads. -/
structure DateTime where
  year : Nat
  month : Nat
  day : Nat
  hour : Nat
  minute : Nat
  second : Nat
deriving DecidableEq, Repr

/-- `ymdNow`: `ymd = (t.year()*10000) + (t.month()*100) + t.day()`.
On AVR the arithmetic is 16-bit, so the stored code is the value mod 2^16;
equality of the C `int` values coincides with equality of these residues. -/
def ymdNow (t : DateTime) : Nat :=
  (t.year * 10000 + t.month * 100 + t.day) % 65536

/-- Two-digit zero padding, as produced by `%02d` for values below 100. -/
def pad2 (n : Nat) : String := (if n < 10 then "0" else "") ++ toString n

/-- `timeToStr`: `sprintf(buf, "%02d:%02d:%02d", hour, minute, second)`. -/
def timeToStr (t : DateTime) : String :=
  pad2 t.hour ++ ":" ++ pad2 t.minute ++ ":" ++ pad2 t.second

/-- `struct MedItem` of the sketch. `lastAckYMD` holds the 16-bit date code
(see `ymdNow`). -/
structure MedItem where
  name : String
  hour : Nat
  minute : Nat
  pending : Bool
  lastAckYMD : Nat
deriving DecidableEq, Repr

/-- The fixed table `meds[]`. -/
def medsInit : List MedItem :=
  [⟨"BP Tablet", 8, 0, false, 0⟩,
   ⟨"Vitamin D", 13, 30, false, 0⟩,
   ⟨"Insulin", 18, 0, false, 0⟩,
   ⟨"Calcium", 22, 0, false, 0⟩]

/-- `startMedPending(i)`: `meds[i].pending = true;`. -/
def startMedPending (m : MedItem) : MedItem := { m with pending := true }

/-- The nested guard of the due-check loop in `checkMedicinesAuto`:
not pending, hour and minute both match, and not acknowledged today. -/
def medDue (now : DateTime) (m : MedItem) : Bool :=
  !m.pending && (now.hour == m.hour && now.minute == m.minute)
    && (m.lastAckYMD != ymdNow now)

/-- One entry of the due-check loop body. -/
def medCheckStep (now : DateTime) (m : MedItem) : MedItem :=
  if medDue now m then startMedPending m else m

/-- The due-check loop of `checkMedicinesAuto` over the whole table. -/
def checkMedsDue (now : DateTime) (meds : List MedItem) : List MedItem :=
  meds.map (medCheckStep now)

/-- `int lastHydrationHour = -1;` lives in `Int` so the sentinel is exact. -/
def hydrationFires (now : DateTime) (lastHydrationHour : Int) : Bool :=
  now.minute == 0 && lastHydrationHour != (now.hour : Int)

/-- The two globals `checkMedicinesAuto` mutates. -/
structure SchedState where
  lastHydrationHour : Int
  meds : List MedItem
deriving DecidableEq, Repr

/-- First index with `pending == true`, as scanned by the render loop of
`checkMedicinesAuto` and by `confirmFirstPendingMed`. -/
def firstPending : List MedItem → Option Nat
  | [] => none
  | m :: ms => if m.pending then some 0 else (firstPending ms).map (· + 1)

/-- `checkMedicinesAuto`: hydration nudge, then the due-check loop, then
render the first pending entry (if any).  Returns the new state, whether the
hydration nudge fired, and the rendered pending index. -/
def checkMedicinesAuto (now : DateTime) (s : SchedState) :
    SchedState × Bool × Option Nat :=
  let fired := hydrationFires now s.lastHydrationHour
  let lastH := if fired then (now.hour : Int) else s.lastHydrationHour
  let meds := checkMedsDue now s.meds
  (⟨lastH, meds⟩, fired, firstPending meds)

/-- The fixed phrase table `AFFS[]`. -/
def AFFS : List String :=
  ["You are strong!",
   "Proud of you!",
   "Well done!",
   "Keep healthy!",
   "One step at a time."]

/-- The comparison of the next-med scan in `confirmFirstPendingMed`:
`now.hour() < meds[i].hour || (now.hour() == meds[i].hour && now.minute() < meds[i].minute)`. -/
def isLater (now : DateTime) (m : MedItem) : Bool :=
  now.hour < m.hour || (now.hour == m.hour && now.minute < m.minute)

/-- First index satisfying `isLater`, scanned in table order. -/
def firstLater (now : DateTime) : List MedItem → Option Nat
  | [] => none
  | m :: ms => if isLater now m then some 0 else (firstLater now ms).map (· + 1)

/-- `nextIdx` of `confirmFirstPendingMed`: the scan result, or 0
(`// next day first`). -/
def nextMedIdx (now : DateTime) (meds : List MedItem) : Nat :=
  match firstLater now meds with
  | some i => i
  | none => 0

/-- The first loop of `confirmFirstPendingMed`: find the first pending
entry, clear it and stamp today's date code; `none` when nothing is
pending.  Also returns the entry as it was before the write (its name is
rendered). -/
def ackFirst (ymd : Nat) : List MedItem → Option (List MedItem × MedItem)
  | [] => none
  | m :: ms =>
    if m.pending then
      some (({ m with pending := false, lastAckYMD := ymd } : MedItem) :: ms, m)
    else
      match ackFirst ymd ms with
      | some (ms2, r) => some (m :: ms2, r)
      | none => none

/-- What `confirmFirstPendingMed` draws on the LCD. -/
inductive AckRender where
  | taken (name affirmation : String)
  | nextMed (name : String) (hour minute : Nat)
deriving DecidableEq, Repr

/-- Fallback entry when indexing the statically nonempty `meds[]` table. -/
def dummyMed : MedItem := ⟨"", 0, 0, false, 0⟩

/-- `confirmFirstPendingMed`.  `a` is the value of `random(0, AFF_COUNT)`
(an environment input in `[0, AFF_COUNT)`). -/
def confirmFirstPendingMed (now : DateTime) (a : Nat) (meds : List MedItem) :
    List MedItem × AckRender :=
  match ackFirst (ymdNow now) meds with
  | some (meds2, r) => (meds2, .taken r.name (AFFS.getD a ""))
  | none =>
    let i := nextMedIdx now meds
    let m := meds.getD i dummyMed
    (meds, .nextMed m.name m.hour m.minute)

/-- The two events that touch the medication table: a scheduler due-check
cycle and a press of the acknowledgment button (`a` is the affirmation
draw, irrelevant to the table). -/
inductive MedEvent where
  | sched (now : DateTime)
  | ack (now : DateTime) (a : Nat)
deriving DecidableEq, Repr

/-- The clock date code at which an event runs. -/
def MedEvent.ymd : MedEvent → Nat
  | .sched now => ymdNow now
  | .ack now _ => ymdNow now

/-- Effect of one event on the medication table. -/
def medStep (e : MedEvent) (meds : List MedItem) : List MedItem :=
  match e with
  | .sched now => checkMedsDue now meds
  | .ack now a => (confirmFirstPendingMed now a meds).1

/-- Running a sequence of events over the table. -/
def medRun (meds : List MedItem) : List MedEvent → List MedItem
  | [] => meds
  | e :: es => medRun (medStep e meds) es

/-- An event stamps entry `i` exactly when it is an acknowledgment and `i`
is the first pending index at that moment (that is the entry whose
`lastAckYMD` the handler writes). -/
def stampsEntry (i : Nat) (e : MedEvent) (meds : List MedItem) : Bool :=
  match e with
  | .sched _ => false
  | .ack _ _ => firstPending meds == some i

/-- Number of date stamps entry `i` receives along a run. -/
def stampCount (i : Nat) : List MedItem → List MedEvent → Nat
  | _, [] => 0
  | meds, e :: es =>
    (if stampsEntry i e meds then 1 else 0) + stampCount i (medStep e meds) es

/-- Observable side effects shared by the button paths and the RFID/SOS
paths of the sketch. -/
inductive Act where
  | beep
  | buzzerOn
  | buzzerOff
  | haltReader
  | stopCrypto
  | menu
  | sosFlowRun
deriving DecidableEq, Repr

/-- The debounce cells `lastDebounceTime[4]` and the idle timer
`lastActivity`. -/
structure BtnState where
  lastDebounceTime : Fin 4 → Nat
  lastActivity : Nat

/-- `readBtnOnce(pin, idx)`: `pinLow` is `digitalRead(pin) == LOW`, `now`
is `millis()`.  Returns the accept flag, the new globals, and the emitted
actions (`shortBeep()` on acceptance). -/
def readBtnOnce (pinLow : Bool) (now : Nat) (idx : Fin 4) (s : BtnState) :
    Bool × BtnState × List Act :=
  if pinLow then
    if elapsed now (s.lastDebounceTime idx) > DEBOUNCE_MS then
      (true, ⟨Function.update s.lastDebounceTime idx now, now⟩, [.beep])
    else (false, s, [])
  else (false, s, [])

/-- The inline SOS held-detection of `loop()`: on a low line past the
debounce window it writes cell 3 and runs `sosFlow()`; nothing else is
touched before the flow starts. -/
def loopSosCheck (sosLow : Bool) (now : Nat) (s : BtnState) :
    BtnState × List Act :=
  if sosLow then
    if elapsed now (s.lastDebounceTime 3) > DEBOUNCE_MS then
      (⟨Function.update s.lastDebounceTime 3 now, s.lastActivity⟩, [.sosFlowRun])
    else (s, [])
  else (s, [])

/-- ASCII lower-casing of a character code (codes 65–90 shift by 32), as C
`tolower` does in `strcasecmp`. -/
def lowerAscii (c : Char) : Char :=
  if 65 ≤ c.toNat ∧ c.toNat ≤ 90 then Char.ofNat (c.toNat + 32) else c

/-- `strcasecmp(a, b) == 0`: the strings agree case-insensitively, which in
particular forces equal length. -/
def strcasecmpEq (a b : List Char) : Bool :=
  a.map lowerAscii == b.map lowerAscii

/-- One hex digit of `uidToHex` (uppercase). -/
def hexDigit (n : Nat) : Char :=
  if n < 10 then Char.ofNat (Char.toNat '0' + n)
  else Char.ofNat (Char.toNat 'A' + (n - 10))

/-- `uidToHex`: each UID byte becomes high then low nibble. -/
def uidToHex (bytes : List Nat) : List Char :=
  bytes.flatMap fun b => [hexDigit (b / 16 % 16), hexDigit (b % 16)]

/-- `struct KnownItem` of the sketch. -/
structure KnownItem where
  uidHex : List Char
  name : String
  lastScanned : String
deriving DecidableEq, Repr

/-- The fixed table `knownItems[]`. -/
def knownItemsInit : List KnownItem :=
  [⟨"6C433E06".toList, "Keys", "00:00:00"⟩,
   ⟨"05F7A904".toList, "Medicine Box", "00:00:00"⟩,
   ⟨"26B0A304".toList, "Glasses", "00:00:00"⟩]

/-- What the tag handler draws after resolving a token. -/
inductive RfidRender where
  | found (name lastScanned : String)
  | unknown (uid : List Char)
deriving DecidableEq, Repr

/-- The lookup-and-update of `handleRFID_Auto`: scan the table in order for
the first `strcasecmp` match; on a hit overwrite that item's `lastScanned`
with the current time string and render its name, otherwise leave the table
alone and render the raw token. -/
def lookupTag (uid : List Char) (tstr : String) :
    List KnownItem → Option (List KnownItem × KnownItem)
  | [] => none
  | k :: ks =>
    if strcasecmpEq uid k.uidHex then
      some (({ k with lastScanned := tstr } : KnownItem) :: ks, k)
    else
      match lookupTag uid tstr ks with
      | some (ks2, r) => some (k :: ks2, r)
      | none => none

/-- The table update and render of `handleRFID_Auto` for one read token. -/
def handleTagLookup (now : DateTime) (uid : List Char)
    (items : List KnownItem) : List KnownItem × RfidRender :=
  match lookupTag uid (timeToStr now) items with
  | some (items2, r) => (items2, .found r.name (timeToStr now))
  | none => (items, .unknown uid)

/-- Environment of one iteration of the presence sub-loop: whether
`PICC_IsNewCardPresent && PICC_ReadCardSerial` succeeded, the `millis()`
value at the refresh point, the `millis()` value at the timeout test, and
whether the SOS line reads low. -/
structure Poll where
  readOk : Bool
  tRead : Nat
  tCheck : Nat
  sosLow : Bool
deriving DecidableEq, Repr

/-- Why the presence sub-loop broke. -/
inductive ExitReason where
  | timeout
  | sos
deriving DecidableEq, Repr

/-- The `while (true)` presence sub-loop: refresh `lastSeen` on a
successful read, break on `millis() - lastSeen > 300`, break on a low SOS
line; otherwise loop.  `none` means the supplied environment trace ran out
with the loop still spinning. -/
def sessionRun (lastSeen : Nat) : List Poll → Option ExitReason
  | [] => none
  | p :: ps =>
    let ls := if p.readOk then p.tRead else lastSeen
    if elapsed p.tCheck ls > 300 then some .timeout
    else if p.sosLow then some .sos
    else sessionRun ls ps

/-- The `lastSeen` value and poll of each iteration the sub-loop would
enter, for stating where it exits. -/
def iterStates (lastSeen : Nat) : List Poll → List (Nat × Poll)
  | [] => []
  | p :: ps =>
    let ls := if p.readOk then p.tRead else lastSeen
    (ls, p) :: iterStates ls ps

/-- The break condition of one iteration, on its refreshed `lastSeen`. -/
def exitCond (x : Nat × Poll) : Bool :=
  decide (elapsed x.2.tCheck x.1 > 300) || x.2.sosLow

/-- The reason an iteration breaks (timeout is tested first). -/
def exitReasonOf (x : Nat × Poll) : ExitReason :=
  if elapsed x.2.tCheck x.1 > 300 then .timeout else .sos

/-- Action trace of `handleRFID_Auto` once a token has been read: render,
buzzer held high, then, only if the sub-loop breaks, buzzer low and the
reader shutdown (`PICC_HaltA`, `PCD_StopCrypto1`) and the menu redraw.  The
sub-loop body itself emits nothing (it only polls and delays). -/
def tagSessionActs (lastSeen : Nat) (polls : List Poll) : List Act :=
  [.buzzerOn] ++
    (match sessionRun lastSeen polls with
     | some _ => [.buzzerOff, .haltReader, .stopCrypto, .menu]
     | none => [])

/-- Setup-time observable steps relevant to error handling. -/
inductive SetupAct where
  | initPeripherals
  | msgRtcNotFound
  | msgRtcLostPower
  | rtcAdjust
  | halt
  | startupScreen
  | setLastActivity
deriving DecidableEq, Repr

/-- `setup()`: peripheral init, then `if (!rtc.begin())` render the
not-found message, `else if (rtc.lostPower())` render the warning; in every
case fall through to `lcdStartup()` and `lastActivity = millis()`.  No
branch retries, adjusts the clock, or halts. -/
def setupRun (rtcBeginOk lostPower : Bool) : List SetupAct :=
  [.initPeripherals] ++
    (if !rtcBeginOk then [.msgRtcNotFound]
     else if lostPower then [.msgRtcLostPower]
     else []) ++
    [.startupScreen, .setLastActivity]

/-! Helper lemmas. -/

theorem elapsed_eq_sub (t1 t2 : Nat) (h1 : t1 ≤ t2) (h2 : t2 - t1 < U32)
    (h3 : t1 < U32) : elapsed t2 t1 = t2 - t1 := by
  unfold elapsed
  rw [Nat.mod_eq_of_lt h3]
  have hrw : t2 + U32 - t1 = (t2 - t1) + U32 := by omega
  rw [hrw, Nat.add_mod_right, Nat.mod_eq_of_lt h2]

theorem medCheckStep_pending (now : DateTime) (m : MedItem) :
    (medCheckStep now m).pending
      = (m.pending
          || ((now.hour == m.hour && now.minute == m.minute)
              && m.lastAckYMD != ymdNow now)) := by
  cases hp : m.pending
  · simp [medCheckStep, medDue, startMedPending, hp]
    split <;> simp_all
  · simp [medCheckStep, medDue, startMedPending, hp]

theorem medCheckStep_of_pending (now : DateTime) (m : MedItem)
    (hp : m.pending = true) : medCheckStep now m = m := by
  simp [medCheckStep, medDue, hp]

theorem medCheckStep_name (now : DateTime) (m : MedItem) :
    (medCheckStep now m).name = m.name := by
  unfold medCheckStep startMedPending
  split <;> rfl

theorem medCheckStep_lastAckYMD (now : DateTime) (m : MedItem) :
    (medCheckStep now m).lastAckYMD = m.lastAckYMD := by
  unfold medCheckStep startMedPending
  split <;> rfl

theorem medCheckStep_acked_today (now : DateTime) (m : MedItem)
    (hp : m.pending = false) (ha : m.lastAckYMD = ymdNow now) :
    medCheckStep now m = m := by
  simp [medCheckStep, medDue, hp, ha]

theorem checkMedsDue_getElem? (now : DateTime) (meds : List MedItem)
    (i : Nat) : (checkMedsDue now meds)[i]? = meds[i]?.map (medCheckStep now) := by
  simp [checkMedsDue]

theorem firstPending_mem (meds : List MedItem) (i : Nat)
    (h : firstPending meds = some i) :
    ∃ m, meds[i]? = some m ∧ m.pending = true := by
  induction meds generalizing i with
  | nil => simp [firstPending] at h
  | cons m ms ih =>
    by_cases hp : m.pending = true
    · simp [firstPending, hp] at h
      exact ⟨m, by simp [← h], hp⟩
    · simp [firstPending, hp] at h
      obtain ⟨j, hj, rfl⟩ := h
      obtain ⟨m2, hm2, hp2⟩ := ih j hj
      exact ⟨m2, by simpa using hm2, hp2⟩

theorem firstPending_min (meds : List MedItem) (i j : Nat) (m : MedItem)
    (h : firstPending meds = some i) (hj : j < i) (hm : meds[j]? = some m) :
    m.pending = false := by
  induction meds generalizing i j with
  | nil => simp [firstPending] at h
  | cons m0 ms ih =>
    by_cases hp : m0.pending = true
    · simp [firstPending, hp] at h
      omega
    · simp [firstPending, hp] at h
      obtain ⟨i2, hi2, rfl⟩ := h
      cases j with
      | zero =>
        simp at hm
        simpa [← hm] using Bool.eq_false_iff.mpr hp
      | succ k =>
        simp at hm
        exact ih i2 k hi2 (by omega) hm

theorem firstPending_none (meds : List MedItem)
    (h : firstPending meds = none) (m : MedItem) (hm : m ∈ meds) :
    m.pending = false := by
  induction meds with
  | nil => simp at hm
  | cons m0 ms ih =>
    by_cases hp : m0.pending = true
    · simp [firstPending, hp] at h
    · simp [firstPending, hp] at h
      rcases List.mem_cons.mp hm with rfl | hmem
      · exact Bool.eq_false_iff.mpr hp
      · exact ih h hmem

theorem ackFirst_spec (ymd : Nat) (meds meds2 : List MedItem) (r : MedItem)
    (h : ackFirst ymd meds = some (meds2, r)) :
    ∃ i, firstPending meds = some i ∧ meds[i]? = some r ∧ r.pending = true ∧
      meds2 = meds.set i { r with pending := false, lastAckYMD := ymd } := by
  induction meds generalizing meds2 with
  | nil => simp [ackFirst] at h
  | cons m ms ih =>
    by_cases hp : m.pending = true
    · simp [ackFirst, hp] at h
      exact ⟨0, by simp [firstPending, hp], by simp [h.2], by simp [← h.2, hp],
        by simp [← h.1, h.2]⟩
    · simp only [ackFirst, hp] at h
      rw [if_neg (by simp [hp])] at h
      cases hrec : ackFirst ymd ms with
      | none => rw [hrec] at h; simp at h
      | some pr =>
        rw [hrec] at h
        simp at h
        obtain ⟨i, hfp, hget, hpend, hset⟩ := ih pr.1 (by rw [hrec, ← h.2])
        exact ⟨i + 1, by simp [firstPending, hp, hfp],
          by simpa using hget, hpend, by simp [← h.1, hset]⟩

theorem ackFirst_none_iff (ymd : Nat) (meds : List MedItem) :
    ackFirst ymd meds = none ↔ firstPending meds = none := by
  induction meds with
  | nil => simp [ackFirst, firstPending]
  | cons m ms ih =>
    by_cases hp : m.pending = true
    · simp [ackFirst, firstPending, hp]
    · simp only [ackFirst, firstPending, hp]
      rw [if_neg (by simp [hp]), if_neg (by simp [hp])]
      cases hrec : ackFirst ymd ms with
      | none => simp [ih.mp hrec]
      | some pr =>
        have : firstPending ms ≠ none := fun hc => by
          have := ih.mpr hc; rw [hrec] at this; exact Option.noConfusion this
        cases hfp : firstPending ms with
        | none => exact absurd hfp this
        | some j => simp

/-! Claim theorems. -/

/-- C1: the scheduler due-check newly marks entry `i` pending exactly when
the entry is not already pending, the clock's hour and minute both equal
its scheduled hour and minute, and its stored last-acknowledged date code
differs from today's; and once an acknowledgment has stamped today's date
on the entry it cleared, a due-check at any clock reading of the same date
(in particular within the same scheduled minute) leaves that entry
unpending. -/
theorem due_check_marks_pending_iff (now now2 : DateTime)
    (meds meds2 : List MedItem) (i : Nat) (m : MedItem)
    (hm : meds[i]? = some m) (hday : ymdNow now2 = ymdNow now) :
    (((checkMedsDue now meds)[i]?.map MedItem.pending = some true
        ∧ m.pending = false)
      ↔ (m.pending = false ∧ now.hour = m.hour ∧ now.minute = m.minute
          ∧ m.lastAckYMD ≠ ymdNow now))
    ∧ (∀ r j, ackFirst (ymdNow now) meds = some (meds2, r) →
        firstPending meds = some j →
        (checkMedsDue now2 meds2)[j]?.map MedItem.pending = some false) := by
  constructor
  · rw [checkMedsDue_getElem?, hm]
    simp only [Option.map_some']
    rw [Option.some_inj, medCheckStep_pending]
    cases hp : m.pending
    · simp [and_assoc]
    · simp
  · intro r j hack hfp
    obtain ⟨i2, hfp2, hget, hpend, hset⟩ := ackFirst_spec _ _ _ _ hack
    rw [hfp2] at hfp
    injection hfp with hij
    rw [hij] at hget hset
    have hlen : j < meds.length := (List.getElem?_eq_some.mp hget).1
    have hm2 : meds2[j]? = some { r with pending := false, lastAckYMD := ymdNow now } := by
      rw [hset]
      exact List.getElem?_set_eq_of_lt _ hlen
    rw [checkMedsDue_getElem?, hm2]
    simp only [Option.map_some', Option.some_inj]
    rw [medCheckStep_acked_today now2 _ rfl (by simpa using hday.symm)]

/-- Witness for `due_check_marks_pending_iff` at the BP Tablet entry of the
fixed table with the clock at 2025-01-01 08:00. -/
theorem due_check_marks_pending_iff_witness :
    (checkMedsDue ⟨2025, 1, 1, 8, 0, 0⟩ medsInit)[0]?.map MedItem.pending
      = some true :=
  ((due_check_marks_pending_iff ⟨2025, 1, 1, 8, 0, 0⟩ ⟨2025, 1, 1, 8, 0, 30⟩
      medsInit medsInit 0 ⟨"BP Tablet", 8, 0, false, 0⟩ rfl rfl).1.mpr
    (by exact ⟨rfl, rfl, rfl, by decide⟩)).1

theorem firstLater_mem (now : DateTime) (meds : List MedItem) (k : Nat)
    (h : firstLater now meds = some k) :
    ∃ m, meds[k]? = some m ∧ isLater now m = true := by
  induction meds generalizing k with
  | nil => simp [firstLater] at h
  | cons m ms ih =>
    by_cases hl : isLater now m = true
    · simp [firstLater, hl] at h
      exact ⟨m, by simp [← h], hl⟩
    · simp [firstLater, hl] at h
      obtain ⟨j, hj, rfl⟩ := h
      obtain ⟨m2, hm2, hl2⟩ := ih j hj
      exact ⟨m2, by simpa using hm2, hl2⟩

theorem firstLater_min (now : DateTime) (meds : List MedItem) (k j : Nat)
    (m : MedItem) (h : firstLater now meds = some k) (hj : j < k)
    (hm : meds[j]? = some m) : isLater now m = false := by
  induction meds generalizing k j with
  | nil => simp [firstLater] at h
  | cons m0 ms ih =>
    by_cases hl : isLater now m0 = true
    · simp [firstLater, hl] at h
      omega
    · simp [firstLater, hl] at h
      obtain ⟨k2, hk2, rfl⟩ := h
      cases j with
      | zero =>
        simp at hm
        simpa [← hm] using Bool.eq_false_iff.mpr hl
      | succ j2 =>
        simp at hm
        exact ih k2 j2 hk2 (by omega) hm

theorem firstLater_none (now : DateTime) (meds : List MedItem)
    (h : firstLater now meds = none) (m : MedItem) (hm : m ∈ meds) :
    isLater now m = false := by
  induction meds with
  | nil => simp at hm
  | cons m0 ms ih =>
    by_cases hl : isLater now m0 = true
    · simp [firstLater, hl] at h
    · simp [firstLater, hl] at h
      rcases List.mem_cons.mp hm with rfl | hmem
      · exact Bool.eq_false_iff.mpr hl
      · exact ih h hmem

/-- The chronological ordering on schedule slots the spec's description of
the fallback assumes (compare hour, then minute): modelled from the spec's
words for the refinement half of C3. -/
def timeLE (x y : MedItem) : Prop :=
  x.hour < y.hour ∨ (x.hour = y.hour ∧ x.minute ≤ y.minute)

instance (x y : MedItem) : Decidable (timeLE x y) := by
  unfold timeLE
  infer_instance

/-- Entry `i` was acknowledged on day `d` and is idle: not pending and
stamped with `d`.  This is the shape the table is left in right after a
date stamp, and it persists through every same-day event. -/
def AckedToday (i d : Nat) (meds : List MedItem) : Prop :=
  ∀ m, meds[i]? = some m → m.pending = false ∧ m.lastAckYMD = d

theorem ackedToday_step (i d : Nat) (e : MedEvent) (meds : List MedItem)
    (he : e.ymd = d) (hinv : AckedToday i d meds) :
    AckedToday i d (medStep e meds) ∧ stampsEntry i e meds = false := by
  have hnotfp : firstPending meds ≠ some i := by
    intro hfp
    obtain ⟨m, hm, hp⟩ := firstPending_mem meds i hfp
    rw [(hinv m hm).1] at hp
    exact Bool.noConfusion hp
  cases e with
  | sched now =>
    refine ⟨?_, rfl⟩
    intro m2 hm2
    rw [medStep, checkMedsDue_getElem?] at hm2
    cases hm : meds[i]? with
    | none => rw [hm] at hm2; exact Option.noConfusion hm2
    | some m =>
      rw [hm] at hm2
      obtain ⟨hp, ha⟩ := hinv m hm
      have hd : ymdNow now = d := he
      rw [Option.map_some', Option.some_inj] at hm2
      rw [← hm2, medCheckStep_acked_today now m hp (by rw [ha, hd])]
      exact ⟨hp, ha⟩
  | ack now a =>
    refine ⟨?_, by simpa [stampsEntry] using hnotfp⟩
    intro m2 hm2
    rw [medStep, confirmFirstPendingMed] at hm2
    cases hack : ackFirst (ymdNow now) meds with
    | none => rw [hack] at hm2; exact hinv m2 hm2
    | some pr =>
      obtain ⟨j, hfp, hget, hpend, hset⟩ := ackFirst_spec _ _ _ _ (by rw [hack])
      have hji : j ≠ i := fun hc => hnotfp (hc ▸ hfp)
      rw [hack] at hm2
      simp only at hm2
      rw [hset] at hm2
      rw [List.getElem?_set_ne hji] at hm2
      exact hinv m2 hm2

theorem ackedToday_stampCount_zero (i d : Nat) :
    ∀ (es : List MedEvent) (meds : List MedItem),
      (∀ e ∈ es, e.ymd = d) → AckedToday i d meds →
      stampCount i meds es = 0 := by
  intro es
  induction es with
  | nil => intro meds _ _; rfl
  | cons e es ih =>
    intro meds hd hinv
    obtain ⟨hinv2, hns⟩ :=
      ackedToday_step i d e meds (hd e (List.mem_cons_self _ _)) hinv
    rw [stampCount, hns, if_neg (by simp)]
    rw [ih (medStep e meds) (fun e2 he2 => hd e2 (List.mem_cons_of_mem e he2)) hinv2]

theorem stamp_establishes_ackedToday (i d : Nat) (e : MedEvent)
    (meds : List MedItem) (he : e.ymd = d)
    (hs : stampsEntry i e meds = true) : AckedToday i d (medStep e meds) := by
  cases e with
  | sched now => exact absurd hs (by simp [stampsEntry])
  | ack now a =>
    have hfp : firstPending meds = some i := by
      simpa [stampsEntry] using hs
    obtain ⟨m, hm, hp⟩ := firstPending_mem meds i hfp
    have hack : ackFirst (ymdNow now) meds ≠ none := by
      rw [Ne, ackFirst_none_iff, hfp]
      simp
    cases hack2 : ackFirst (ymdNow now) meds with
    | none => exact absurd hack2 hack
    | some pr =>
      obtain ⟨j, hfp2, hget, hpend, hset⟩ := ackFirst_spec _ _ _ _ (by rw [hack2])
      rw [hfp] at hfp2
      injection hfp2 with hij
      rw [← hij] at hget hset
      have hlen : i < meds.length := (List.getElem?_eq_some.mp hget).1
      intro m2 hm2
      rw [medStep, confirmFirstPendingMed, hack2] at hm2
      simp only at hm2
      rw [hset, List.getElem?_set_eq_of_lt _ hlen, Option.some_inj] at hm2
      rw [← hm2]
      exact ⟨rfl, he⟩

/-- C2: (a) a pending entry stays pending across any number of scheduler
due-check cycles; (b) an event that clears a pending flag is necessarily an
acknowledgment; (c) along any run of events of one calendar day, each entry
receives at most one acknowledgment date stamp. -/
theorem pending_persists_and_one_stamp_per_day :
    (∀ (es : List MedEvent) (meds : List MedItem) (i : Nat),
      (∀ e ∈ es, ∃ now, e = MedEvent.sched now) →
      meds[i]?.map MedItem.pending = some true →
      (medRun meds es)[i]?.map MedItem.pending = some true)
    ∧ (∀ (e : MedEvent) (meds : List MedItem) (i : Nat),
        meds[i]?.map MedItem.pending = some true →
        (medStep e meds)[i]?.map MedItem.pending = some false →
        ∃ now a, e = MedEvent.ack now a)
    ∧ (∀ (es : List MedEvent) (meds : List MedItem) (i d : Nat),
        (∀ e ∈ es, e.ymd = d) → stampCount i meds es ≤ 1) := by
  have hsched : ∀ (now : DateTime) (meds : List MedItem) (i : Nat),
      meds[i]?.map MedItem.pending = some true →
      (checkMedsDue now meds)[i]?.map MedItem.pending = some true := by
    intro now meds i h
    cases hm : meds[i]? with
    | none => rw [hm] at h; exact Option.noConfusion h
    | some m =>
      rw [hm, Option.map_some', Option.some_inj] at h
      rw [checkMedsDue_getElem?, hm, Option.map_some',
        medCheckStep_of_pending now m h, Option.map_some', h]
  refine ⟨?_, ?_, ?_⟩
  · intro es
    induction es with
    | nil => intro meds i _ h; exact h
    | cons e es ih =>
      intro meds i hall h
      obtain ⟨now, rfl⟩ := hall e (List.mem_cons_self _ _)
      exact ih (medStep (.sched now) meds) i
        (fun e2 he2 => hall e2 (List.mem_cons_of_mem _ he2))
        (hsched now meds i h)
  · intro e meds i h1 h2
    cases e with
    | sched now =>
      rw [medStep, hsched now meds i h1] at h2
      exact absurd (Option.some_inj.mp h2) (by simp)
    | ack now a => exact ⟨now, a, rfl⟩
  · intro es
    induction es with
    | nil => intro meds i d _; simp [stampCount]
    | cons e es ih =>
      intro meds i d hd
      cases hs : stampsEntry i e meds
      · rw [stampCount, hs, if_neg (by simp)]
        have := ih (medStep e meds) i d
          (fun e2 he2 => hd e2 (List.mem_cons_of_mem e he2))
        omega
      · rw [stampCount, hs, if_pos rfl]
        rw [ackedToday_stampCount_zero i d es (medStep e meds)
          (fun e2 he2 => hd e2 (List.mem_cons_of_mem e he2))
          (stamp_establishes_ackedToday i d e meds (hd e (List.mem_cons_self _ _)) hs)]

/-- Witness for `pending_persists_and_one_stamp_per_day`: a concrete
2025-01-01 run (due-check at 08:00, acknowledgment at 08:00:30, due-checks
at 08:00:35 and 13:30) stamps the BP Tablet entry exactly once, and a
pending entry survives two scheduler cycles. -/
theorem pending_persists_and_one_stamp_per_day_witness :
    stampCount 0 (checkMedsDue ⟨2025, 1, 1, 8, 0, 0⟩ medsInit)
        [MedEvent.ack ⟨2025, 1, 1, 8, 0, 30⟩ 1,
         MedEvent.sched ⟨2025, 1, 1, 8, 0, 35⟩,
         MedEvent.sched ⟨2025, 1, 1, 13, 30, 0⟩] ≤ 1
    ∧ (medRun (checkMedsDue ⟨2025, 1, 1, 8, 0, 0⟩ medsInit)
        [MedEvent.sched ⟨2025, 1, 1, 8, 0, 10⟩,
         MedEvent.sched ⟨2025, 1, 1, 8, 0, 20⟩])[0]?.map MedItem.pending
      = some true :=
  ⟨pending_persists_and_one_stamp_per_day.2.2 _ _ 0 65013 (by decide),
   pending_persists_and_one_stamp_per_day.1 _ _ 0
     (by
       intro e he
       simp only [List.mem_cons, List.not_mem_nil, or_false] at he
       rcases he with rfl | rfl
       · exact ⟨_, rfl⟩
       · exact ⟨_, rfl⟩)
     (by decide)⟩

/-- C3: with at least one pending entry, the acknowledgment handler clears
exactly the lowest-index pending entry, stamps today's date code on it,
leaves every other entry untouched, and renders that entry's name with an
affirmation from the fixed phrase table; with none pending it renders the
first entry in table order strictly later than the current time of day
(under the table's chronological sortedness this is the soonest future
entry), falling back to index 0 when nothing later remains today.  In
particular at 09:00 over entries at 08:00 and 13:30 it renders the 13:30
entry. -/
theorem ack_handler_behavior (now : DateTime) (a : Nat) (meds : List MedItem)
    (ha : a < AFFS.length) :
    (∀ i mi, firstPending meds = some i → meds[i]? = some mi →
      (confirmFirstPendingMed now a meds).1
          = meds.set i { mi with pending := false, lastAckYMD := ymdNow now }
        ∧ (∀ j, j ≠ i → (confirmFirstPendingMed now a meds).1[j]? = meds[j]?)
        ∧ (∀ j mj, j < i → meds[j]? = some mj → mj.pending = false)
        ∧ mi.pending = true
        ∧ (confirmFirstPendingMed now a meds).2
            = AckRender.taken mi.name (AFFS.getD a "")
        ∧ AFFS.getD a "" ∈ AFFS)
    ∧ (firstPending meds = none →
        (confirmFirstPendingMed now a meds).1 = meds
        ∧ (confirmFirstPendingMed now a meds).2
            = AckRender.nextMed (meds.getD (nextMedIdx now meds) dummyMed).name
                (meds.getD (nextMedIdx now meds) dummyMed).hour
                (meds.getD (nextMedIdx now meds) dummyMed).minute
        ∧ (∀ k, firstLater now meds = some k →
            nextMedIdx now meds = k
            ∧ (∃ mk, meds[k]? = some mk ∧ isLater now mk = true)
            ∧ (∀ (j : Nat) (mj : MedItem), j < k → meds[j]? = some mj →
                isLater now mj = false)
            ∧ (List.Pairwise timeLE meds →
                ∀ (j : Nat) (mj : MedItem), meds[j]? = some mj →
                  isLater now mj = true → timeLE (meds.getD k dummyMed) mj))
        ∧ (firstLater now meds = none → nextMedIdx now meds = 0))
    ∧ (confirmFirstPendingMed ⟨2025, 6, 1, 9, 0, 0⟩ a
        [⟨"BP Tablet", 8, 0, false, 0⟩, ⟨"Vitamin D", 13, 30, false, 0⟩]).2
        = AckRender.nextMed "Vitamin D" 13 30 := by
  refine ⟨?_, ?_, rfl⟩
  · intro i mi hfp hget
    cases hack : ackFirst (ymdNow now) meds with
    | none =>
      rw [ackFirst_none_iff, hfp] at hack
      exact Option.noConfusion hack
    | some pr =>
      obtain ⟨i2, hfp2, hget2, hpend2, hset2⟩ := ackFirst_spec _ _ _ _ (by rw [hack])
      rw [hfp] at hfp2
      injection hfp2 with hii
      rw [← hii] at hget2 hset2
      rw [hget] at hget2
      injection hget2 with hmi
      rw [← hmi] at hset2 hpend2
      have hc1 : (confirmFirstPendingMed now a meds).1 = pr.1 := by
        rw [confirmFirstPendingMed, hack]
      have hc2 : (confirmFirstPendingMed now a meds).2
          = AckRender.taken pr.2.name (AFFS.getD a "") := by
        rw [confirmFirstPendingMed, hack]
      refine ⟨by rw [hc1, hset2], ?_, ?_, hpend2, by rw [hc2, ← hmi], ?_⟩
      · intro j hji
        rw [hc1, hset2]
        exact List.getElem?_set_ne (fun hc => hji hc.symm)
      · intro j mj hji hgetj
        exact firstPending_min meds i j mj hfp hji hgetj
      · have : AFFS.getD a "" = AFFS.get ⟨a, ha⟩ := by
          rw [List.getD_eq_getElem?_getD, List.getElem?_eq_getElem ha]
          rfl
        rw [this]
        exact List.get_mem AFFS a ha
  · intro hfp
    have hack : ackFirst (ymdNow now) meds = none := (ackFirst_none_iff _ _).mpr hfp
    have hc1 : (confirmFirstPendingMed now a meds).1 = meds := by
      rw [confirmFirstPendingMed, hack]
    have hc2 : (confirmFirstPendingMed now a meds).2
        = AckRender.nextMed (meds.getD (nextMedIdx now meds) dummyMed).name
            (meds.getD (nextMedIdx now meds) dummyMed).hour
            (meds.getD (nextMedIdx now meds) dummyMed).minute := by
      rw [confirmFirstPendingMed, hack]
    refine ⟨hc1, hc2, ?_, ?_⟩
    · intro k hfl
      have hidx : nextMedIdx now meds = k := by
        rw [nextMedIdx, hfl]
      obtain ⟨mk, hmk, hlk⟩ := firstLater_mem now meds k hfl
      refine ⟨hidx, ⟨mk, hmk, hlk⟩,
        fun j mj hjk hgetj => firstLater_min now meds k j mj hfl hjk hgetj, ?_⟩
      intro hsort j mj hgetj hlj
      have hgd : meds.getD k dummyMed = mk := by
        rw [List.getD_eq_getElem?_getD, hmk]
        rfl
      rw [hgd]
      rcases Nat.lt_trichotomy j k with hjk | hjk | hjk
      · rw [firstLater_min now meds k j mj hfl hjk hgetj] at hlj
        exact Bool.noConfusion hlj
      · rw [hjk] at hgetj
        rw [hmk] at hgetj
        injection hgetj with hm
        rw [hm]
        right
        exact ⟨rfl, Nat.le_refl _⟩
      · have hkl : k < meds.length := (List.getElem?_eq_some.mp hmk).1
        have hjl : j < meds.length := (List.getElem?_eq_some.mp hgetj).1
        have := List.pairwise_iff_getElem.mp hsort k j hkl hjl hjk
        rw [List.getElem?_eq_getElem hkl] at hmk
        rw [List.getElem?_eq_getElem hjl] at hgetj
        injection hmk with h1
        injection hgetj with h2
        rw [h1, h2] at this
        exact this
    · intro hfl
      rw [nextMedIdx, hfl]

/-- Witness for `ack_handler_behavior`: acknowledging the fixed table with
the BP Tablet entry pending at 2025-01-01 08:00:30 stamps that entry with
the day's date code and announces it; the example conjunct holds at the
stated inputs. -/
theorem ack_handler_behavior_witness :
    (confirmFirstPendingMed ⟨2025, 1, 1, 8, 0, 30⟩ 1
        (checkMedsDue ⟨2025, 1, 1, 8, 0, 0⟩ medsInit)).2
      = AckRender.taken "BP Tablet" "Proud of you!"
    ∧ (confirmFirstPendingMed ⟨2025, 6, 1, 9, 0, 0⟩ 1
        [⟨"BP Tablet", 8, 0, false, 0⟩, ⟨"Vitamin D", 13, 30, false, 0⟩]).2
      = AckRender.nextMed "Vitamin D" 13 30 :=
  ⟨by
    have h := (ack_handler_behavior ⟨2025, 1, 1, 8, 0, 30⟩ 1
        (checkMedsDue ⟨2025, 1, 1, 8, 0, 0⟩ medsInit) (by decide)).1 0
        ⟨"BP Tablet", 8, 0, true, 0⟩ (by decide) (by decide)
    exact h.2.2.2.2.1.trans (by decide),
   (ack_handler_behavior ⟨2025, 6, 1, 9, 0, 0⟩ 1 [] (by decide)).2.2⟩

/-- C4: `readBtnOnce` accepts exactly when the line reads low and more than
the 200 ms debounce threshold (in 32-bit `millis` arithmetic) has elapsed
since that id's last accepted press; on acceptance it stores the current
time in that id's debounce cell, refreshes the global idle timer, and emits
a short beep; otherwise it returns false and leaves all state untouched
with no output.  Hence two accepted presses of one id, without wraparound,
are more than the threshold apart. -/
theorem readBtnOnce_debounce (pinLow : Bool) (t1 t2 : Nat) (idx : Fin 4)
    (s : BtnState) :
    ((readBtnOnce pinLow t2 idx s).1 = true
      ↔ pinLow = true ∧ elapsed t2 (s.lastDebounceTime idx) > DEBOUNCE_MS)
    ∧ ((readBtnOnce pinLow t2 idx s).1 = true →
        (readBtnOnce pinLow t2 idx s).2.1.lastDebounceTime idx = t2
        ∧ (∀ j, j ≠ idx →
            (readBtnOnce pinLow t2 idx s).2.1.lastDebounceTime j
              = s.lastDebounceTime j)
        ∧ (readBtnOnce pinLow t2 idx s).2.1.lastActivity = t2
        ∧ (readBtnOnce pinLow t2 idx s).2.2 = [Act.beep])
    ∧ ((readBtnOnce pinLow t2 idx s).1 = false →
        (readBtnOnce pinLow t2 idx s).2.1 = s
        ∧ (readBtnOnce pinLow t2 idx s).2.2 = [])
    ∧ (s.lastDebounceTime idx = t1 → t1 ≤ t2 → t2 - t1 < U32 → t1 < U32 →
        (readBtnOnce pinLow t2 idx s).1 = true → DEBOUNCE_MS < t2 - t1) := by
  refine ⟨?_, ?_, ?_, ?_⟩
  · cases pinLow
    · simp [readBtnOnce]
    · by_cases hw : elapsed t2 (s.lastDebounceTime idx) > DEBOUNCE_MS
      · simp [readBtnOnce, hw]
      · simp [readBtnOnce, hw]
  · intro hacc
    cases pinLow
    · simp [readBtnOnce] at hacc
    · by_cases hw : elapsed t2 (s.lastDebounceTime idx) > DEBOUNCE_MS
      · refine ⟨?_, ?_, ?_, ?_⟩
        · simp [readBtnOnce, hw, Function.update_same]
        · intro j hj
          simp [readBtnOnce, hw, Function.update_noteq hj]
        · simp [readBtnOnce, hw]
        · simp [readBtnOnce, hw]
      · simp [readBtnOnce, hw] at hacc
  · intro hrej
    cases pinLow
    · exact ⟨rfl, rfl⟩
    · by_cases hw : elapsed t2 (s.lastDebounceTime idx) > DEBOUNCE_MS
      · simp [readBtnOnce, hw] at hrej
      · simp [readBtnOnce, hw]
  · intro hcell hle hnow hlt hacc
    cases pinLow
    · simp [readBtnOnce] at hacc
    · by_cases hw : elapsed t2 (s.lastDebounceTime idx) > DEBOUNCE_MS
      · rw [hcell, elapsed_eq_sub t1 t2 hle hnow hlt] at hw
        exact hw
      · simp [readBtnOnce, hw] at hacc

/-- Witness for `readBtnOnce_debounce`: a press at `millis = 301` with the
cell last accepted at 100 is accepted, and the two accepted times are more
than the threshold apart. -/
theorem readBtnOnce_debounce_witness :
    (readBtnOnce true 301 1 ⟨fun _ => 100, 50⟩).1 = true
    ∧ DEBOUNCE_MS < 301 - 100 :=
  ⟨(readBtnOnce_debounce true 100 301 1 ⟨fun _ => 100, 50⟩).1.mpr
      ⟨rfl, by decide⟩,
   (readBtnOnce_debounce true 100 301 1 ⟨fun _ => 100, 50⟩).2.2.2 rfl
      (by decide) (by decide) (by decide)
      ((readBtnOnce_debounce true 100 301 1 ⟨fun _ => 100, 50⟩).1.mpr
        ⟨rfl, by decide⟩)⟩

/-- C5: on a scheduler cycle the hydration nudge fires exactly when the
current minute is 0 and the marker differs from the current hour; firing
sets the marker to that hour, so a later cycle in the same hour cannot fire
again; and the firing decision and new marker do not depend on the
medication table, so the nudge also fires on cycles where a medication
comes due. -/
theorem hydration_nudge_once_per_hour (now now2 : DateTime) (s : SchedState) :
    ((checkMedicinesAuto now s).2.1 = true
      ↔ now.minute = 0 ∧ s.lastHydrationHour ≠ (now.hour : Int))
    ∧ ((checkMedicinesAuto now s).2.1 = true →
        (checkMedicinesAuto now s).1.lastHydrationHour = (now.hour : Int)
        ∧ (now2.hour = now.hour →
            (checkMedicinesAuto now2 (checkMedicinesAuto now s).1).2.1 = false))
    ∧ (∀ meds2 : List MedItem,
        (checkMedicinesAuto now ⟨s.lastHydrationHour, meds2⟩).2.1
          = (checkMedicinesAuto now s).2.1) := by
  have hfire : (checkMedicinesAuto now s).2.1
      = hydrationFires now s.lastHydrationHour := rfl
  refine ⟨?_, ?_, fun meds2 => rfl⟩
  · rw [hfire]
    simp [hydrationFires]
  · intro hf
    have hmark : (checkMedicinesAuto now s).1.lastHydrationHour
        = (now.hour : Int) := by
      show (if hydrationFires now s.lastHydrationHour then (now.hour : Int)
        else s.lastHydrationHour) = (now.hour : Int)
      rw [hfire] at hf
      rw [if_pos hf]
    refine ⟨hmark, ?_⟩
    intro hh
    show hydrationFires now2 (checkMedicinesAuto now s).1.lastHydrationHour
      = false
    rw [hmark]
    simp [hydrationFires, hh]

/-- Witness for `hydration_nudge_once_per_hour`: at 09:00 from the initial
marker the nudge fires; a second cycle at 09:00:30 in the same hour does
not fire again. -/
theorem hydration_nudge_once_per_hour_witness :
    (checkMedicinesAuto ⟨2025, 1, 1, 9, 0, 0⟩ ⟨-1, medsInit⟩).2.1 = true
    ∧ (checkMedicinesAuto ⟨2025, 1, 1, 9, 0, 30⟩
        (checkMedicinesAuto ⟨2025, 1, 1, 9, 0, 0⟩ ⟨-1, medsInit⟩).1).2.1
      = false :=
  ⟨(hydration_nudge_once_per_hour ⟨2025, 1, 1, 9, 0, 0⟩ ⟨2025, 1, 1, 9, 0, 30⟩
      ⟨-1, medsInit⟩).1.mpr ⟨rfl, by decide⟩,
   ((hydration_nudge_once_per_hour ⟨2025, 1, 1, 9, 0, 0⟩ ⟨2025, 1, 1, 9, 0, 30⟩
      ⟨-1, medsInit⟩).2.1
     ((hydration_nudge_once_per_hour ⟨2025, 1, 1, 9, 0, 0⟩ ⟨2025, 1, 1, 9, 0, 30⟩
        ⟨-1, medsInit⟩).1.mpr ⟨rfl, by decide⟩)).2 rfl⟩

/-- C10: the inline SOS held-detection path of `loop()` updates only
debounce cell 3 before `sosFlow()` starts: every other cell and the idle
timer keep their values and no acknowledgment beep is emitted — in
contrast with an accepted `readBtnOnce` press, which refreshes the idle
timer and beeps. -/
theorem sos_inline_updates_only_cell3 (sosLow : Bool) (now : Nat)
    (s : BtnState) (hlow : sosLow = true)
    (htrig : elapsed now (s.lastDebounceTime 3) > DEBOUNCE_MS) :
    (loopSosCheck sosLow now s).1.lastDebounceTime 3 = now
    ∧ (∀ j, j ≠ 3 →
        (loopSosCheck sosLow now s).1.lastDebounceTime j
          = s.lastDebounceTime j)
    ∧ (loopSosCheck sosLow now s).1.lastActivity = s.lastActivity
    ∧ (loopSosCheck sosLow now s).2 = [Act.sosFlowRun]
    ∧ Act.beep ∉ (loopSosCheck sosLow now s).2
    ∧ (∀ (pinLow : Bool) (t : Nat) (idx : Fin 4) (s2 : BtnState),
        (readBtnOnce pinLow t idx s2).1 = true →
        (readBtnOnce pinLow t idx s2).2.1.lastActivity = t
        ∧ Act.beep ∈ (readBtnOnce pinLow t idx s2).2.2) := by
  subst hlow
  have hrun : loopSosCheck true now s
      = (⟨Function.update s.lastDebounceTime 3 now, s.lastActivity⟩,
          [Act.sosFlowRun]) := by
    rw [loopSosCheck, if_pos rfl, if_pos htrig]
  refine ⟨?_, ?_, ?_, ?_, ?_, ?_⟩
  · rw [hrun]; simp
  · intro j hj; rw [hrun]; simp [Function.update_noteq hj]
  · rw [hrun]
  · rw [hrun]
  · rw [hrun]; simp
  · intro pinLow t idx s2 hacc
    cases pinLow
    · simp [readBtnOnce] at hacc
    · by_cases hw : elapsed t (s2.lastDebounceTime idx) > DEBOUNCE_MS
      · constructor
        · simp [readBtnOnce, hw]
        · simp [readBtnOnce, hw]
      · simp [readBtnOnce, hw] at hacc

/-- Witness for `sos_inline_updates_only_cell3` with the SOS line low at
`millis = 500` and cell 3 last accepted at 100. -/
theorem sos_inline_updates_only_cell3_witness :
    (loopSosCheck true 500 ⟨fun _ => 100, 42⟩).1.lastActivity = 42
    ∧ (loopSosCheck true 500 ⟨fun _ => 100, 42⟩).2 = [Act.sosFlowRun] :=
  ⟨((sos_inline_updates_only_cell3 true 500 ⟨fun _ => 100, 42⟩ rfl
      (by decide)).2.2.1),
   ((sos_inline_updates_only_cell3 true 500 ⟨fun _ => 100, 42⟩ rfl
      (by decide)).2.2.2.1)⟩

theorem toNat_lowerAscii_shift (c : Char) (h : c.toNat ≤ 90) :
    (Char.ofNat (c.toNat + 32)).toNat = c.toNat + 32 := by
  have hv : (c.toNat + 32).isValidChar := Or.inl (by omega)
  unfold Char.ofNat
  rw [dif_pos hv]
  rfl

theorem lowerAscii_idem (c : Char) :
    lowerAscii (lowerAscii c) = lowerAscii c := by
  unfold lowerAscii
  by_cases h : 65 ≤ c.toNat ∧ c.toNat ≤ 90
  · rw [if_pos h]
    rw [if_neg (by rw [toNat_lowerAscii_shift c h.2]; omega)]
  · rw [if_neg h, if_neg h]

theorem lookupTag_spec (uid : List Char) (t : String)
    (items items2 : List KnownItem) (r : KnownItem)
    (h : lookupTag uid t items = some (items2, r)) :
    ∃ i, items[i]? = some r ∧ strcasecmpEq uid r.uidHex = true
      ∧ (∀ (j : Nat) (k : KnownItem), j < i → items[j]? = some k →
          strcasecmpEq uid k.uidHex = false)
      ∧ items2 = items.set i ({ r with lastScanned := t } : KnownItem) := by
  induction items generalizing items2 with
  | nil => simp [lookupTag] at h
  | cons k ks ih =>
    by_cases hm : strcasecmpEq uid k.uidHex = true
    · simp [lookupTag, hm] at h
      refine ⟨0, by simp [h.2], by rw [← h.2]; exact hm, ?_, by simp [← h.1, h.2]⟩
      intro j k2 hj _
      omega
    · simp only [lookupTag, hm] at h
      rw [if_neg (by simp [hm])] at h
      cases hrec : lookupTag uid t ks with
      | none => rw [hrec] at h; simp at h
      | some pr =>
        rw [hrec] at h
        simp at h
        obtain ⟨i, hget, hmatch, hmin, hset⟩ := ih pr.1 (by rw [hrec, ← h.2])
        refine ⟨i + 1, by simpa using hget, hmatch, ?_, by simp [← h.1, hset]⟩
        intro j k2 hj hk2
        cases j with
        | zero =>
          simp at hk2
          rw [← hk2]
          exact Bool.eq_false_iff.mpr hm
        | succ j2 =>
          simp at hk2
          exact hmin j2 k2 (by omega) hk2

theorem lookupTag_none_iff (uid : List Char) (t : String)
    (items : List KnownItem) :
    lookupTag uid t items = none
      ↔ ∀ k ∈ items, strcasecmpEq uid k.uidHex = false := by
  induction items with
  | nil => simp [lookupTag]
  | cons k ks ih =>
    by_cases hm : strcasecmpEq uid k.uidHex = true
    · simp [lookupTag, hm]
    · simp only [lookupTag, hm]
      rw [if_neg (by simp [hm])]
      cases hrec : lookupTag uid t ks with
      | none =>
        simp [List.forall_mem_cons, Bool.eq_false_iff.mpr hm]
        exact ih.mp hrec
      | some pr =>
        have : ¬ ∀ k2 ∈ ks, strcasecmpEq uid k2.uidHex = false := fun hc => by
          have := ih.mpr hc; rw [hrec] at this; exact Option.noConfusion this
        simp [List.forall_mem_cons, this]

/-- C6: the tag lookup of `handleRFID_Auto` is a case-insensitive,
equal-length exact match on the hex identity: a match forces equal length,
the probe's case is irrelevant, a successful lookup updates exactly the
first matching entry's last-seen field to the current time string and
renders its name, and a token matching no entry leaves the table untouched
and is rendered raw as an unknown tag. -/
theorem tag_lookup_case_insensitive_exact (now : DateTime) (uid : List Char)
    (items : List KnownItem) :
    (∀ a b : List Char, strcasecmpEq a b = true → a.length = b.length)
    ∧ (∀ a b : List Char,
        strcasecmpEq (a.map lowerAscii) b = strcasecmpEq a b)
    ∧ (∀ (items2 : List KnownItem) (r : KnownItem),
        lookupTag uid (timeToStr now) items = some (items2, r) →
        handleTagLookup now uid items
            = (items2, RfidRender.found r.name (timeToStr now))
        ∧ ∃ i, items[i]? = some r ∧ strcasecmpEq uid r.uidHex = true
            ∧ (∀ (j : Nat) (k : KnownItem), j < i → items[j]? = some k →
                strcasecmpEq uid k.uidHex = false)
            ∧ items2 = items.set i ({ r with lastScanned := timeToStr now } : KnownItem)
            ∧ (∀ j : Nat, j ≠ i → items2[j]? = items[j]?))
    ∧ ((∀ k ∈ items, strcasecmpEq uid k.uidHex = false) →
        handleTagLookup now uid items = (items, RfidRender.unknown uid))
    ∧ ((∃ k ∈ items, strcasecmpEq uid k.uidHex = true) →
        ∃ pr, lookupTag uid (timeToStr now) items = some pr) := by
  refine ⟨?_, ?_, ?_, ?_, ?_⟩
  · intro a b hab
    have h2 : a.map lowerAscii = b.map lowerAscii := by
      simpa [strcasecmpEq] using hab
    have := congrArg List.length h2
    simpa using this
  · intro a b
    unfold strcasecmpEq
    rw [List.map_map,
      show lowerAscii ∘ lowerAscii = lowerAscii from funext lowerAscii_idem]
  · intro items2 r h
    obtain ⟨i, hget, hmatch, hmin, hset⟩ := lookupTag_spec uid _ items items2 r h
    refine ⟨by rw [handleTagLookup, h], i, hget, hmatch, hmin, hset, ?_⟩
    intro j hji
    rw [hset]
    exact List.getElem?_set_ne (fun hc => hji hc.symm)
  · intro hall
    rw [handleTagLookup, (lookupTag_none_iff uid (timeToStr now) items).mpr hall]
  · intro ⟨k, hk, hmatch⟩
    cases hl : lookupTag uid (timeToStr now) items with
    | none =>
      rw [lookupTag_none_iff] at hl
      rw [hl k hk] at hmatch
      exact Bool.noConfusion hmatch
    | some pr => exact ⟨pr, rfl⟩

/-- Witness for `tag_lookup_case_insensitive_exact`: the lowercase probe
of the Keys token matches the uppercase table entry at 10:05:00 and only
that entry's last-seen field changes. -/
theorem tag_lookup_case_insensitive_exact_witness :
    handleTagLookup ⟨2025, 1, 1, 10, 5, 0⟩ ("6c433e06".toList) knownItemsInit
      = ([⟨"6C433E06".toList, "Keys", "10:05:00"⟩,
          ⟨"05F7A904".toList, "Medicine Box", "00:00:00"⟩,
          ⟨"26B0A304".toList, "Glasses", "00:00:00"⟩],
         RfidRender.found "Keys" "10:05:00") := by
  have h := ((tag_lookup_case_insensitive_exact ⟨2025, 1, 1, 10, 5, 0⟩
      ("6c433e06".toList) knownItemsInit).2.2.1
      [⟨"6C433E06".toList, "Keys", "10:05:00"⟩,
       ⟨"05F7A904".toList, "Medicine Box", "00:00:00"⟩,
       ⟨"26B0A304".toList, "Glasses", "00:00:00"⟩]
      ⟨"6C433E06".toList, "Keys", "00:00:00"⟩ (by decide)).1
  rw [h]
  decide

theorem sessionRun_eq_find (lastSeen : Nat) (polls : List Poll) :
    sessionRun lastSeen polls
      = ((iterStates lastSeen polls).find? exitCond).map exitReasonOf := by
  induction polls generalizing lastSeen with
  | nil => rfl
  | cons p ps ih =>
    show (let ls := if p.readOk then p.tRead else lastSeen
          if elapsed p.tCheck ls > 300 then some ExitReason.timeout
          else if p.sosLow then some ExitReason.sos
          else sessionRun ls ps)
        = ((((if p.readOk then p.tRead else lastSeen, p))
              :: iterStates (if p.readOk then p.tRead else lastSeen) ps).find?
            exitCond).map exitReasonOf
    by_cases ht : elapsed p.tCheck (if p.readOk then p.tRead else lastSeen) > 300
    · rw [List.find?_cons_of_pos _ (by simp [exitCond, ht])]
      simp only [Option.map_some']
      rw [if_pos ht, exitReasonOf, if_pos ht]
    · cases hs : p.sosLow
      · rw [List.find?_cons_of_neg _ (by simp [exitCond, ht, hs])]
        simp only
        rw [if_neg ht]
        simp only [Bool.false_eq_true, if_false]
        exact ih _
      · rw [List.find?_cons_of_pos _ (by simp [exitCond, hs])]
        simp only [Option.map_some']
        rw [if_neg ht]
        simp [exitReasonOf, ht]

/-- C7: during a tag session the buzzer is raised once and no further
buzzer action occurs until the exit sequence; the presence sub-loop exits
exactly at the first iteration whose refreshed last-seen timestamp is more
than 300 ms stale or whose SOS line reads low, a successful read making the
refreshed last-seen equal to that read's time; and on exit the emitted
actions are exactly buzzer-off, reader halt, stop-crypto and the menu
redraw, in that order. -/
theorem tag_session_presence_loop (lastSeen : Nat) (polls : List Poll) :
    (sessionRun lastSeen polls
      = ((iterStates lastSeen polls).find? exitCond).map exitReasonOf)
    ∧ (∀ x ∈ iterStates lastSeen polls,
        exitCond x = true ↔ (elapsed x.2.tCheck x.1 > 300 ∨ x.2.sosLow = true))
    ∧ (∀ (p : Poll) (ps : List Poll), p.readOk = true →
        iterStates lastSeen (p :: ps) = (p.tRead, p) :: iterStates p.tRead ps)
    ∧ (∀ r, sessionRun lastSeen polls = some r →
        tagSessionActs lastSeen polls
          = [Act.buzzerOn, Act.buzzerOff, Act.haltReader, Act.stopCrypto,
             Act.menu])
    ∧ (sessionRun lastSeen polls = none →
        tagSessionActs lastSeen polls = [Act.buzzerOn]) := by
  refine ⟨sessionRun_eq_find lastSeen polls, ?_, ?_, ?_, ?_⟩
  · intro x _
    simp [exitCond]
  · intro p ps hok
    show (let ls := if p.readOk then p.tRead else lastSeen
          ((ls, p)) :: iterStates ls ps)
        = (p.tRead, p) :: iterStates p.tRead ps
    rw [hok]
    simp
  · intro r hr
    rw [tagSessionActs, hr]
    rfl
  · intro hr
    rw [tagSessionActs, hr]
    rfl

/-- Witness for `tag_session_presence_loop`: a session whose second poll
sees nothing for 330 ms exits with a timeout and the full shutdown
sequence. -/
theorem tag_session_presence_loop_witness :
    tagSessionActs 0 [⟨true, 10, 20, false⟩, ⟨false, 0, 350, false⟩]
      = [Act.buzzerOn, Act.buzzerOff, Act.haltReader, Act.stopCrypto,
         Act.menu] :=
  (tag_session_presence_loop 0
      [⟨true, 10, 20, false⟩, ⟨false, 0, 350, false⟩]).2.2.2.1
    ExitReason.timeout (by decide)

/-- C9: a low SOS line breaks the presence sub-loop at that very iteration
(when the staleness timeout has not already fired), regardless of the
remaining polls and of any debounce state — the session model never reads
or writes the debounce cells; the exit actions close the session (buzzer
off, reader halt, stop-crypto, menu) and contain no SOS-flow start; the
SOS flow can only run later through the main loop's own check, exactly
when the line still reads low and cell 3's debounce window has elapsed,
which is also the only moment cell 3 is written. -/
theorem sos_escape_breaks_session_only (lastSeen : Nat) (p : Poll)
    (ps : List Poll) (sosLow2 : Bool) (tMain : Nat) (s : BtnState)
    (hsos : p.sosLow = true)
    (hnt : ¬ elapsed p.tCheck (if p.readOk then p.tRead else lastSeen) > 300) :
    sessionRun lastSeen (p :: ps) = some ExitReason.sos
    ∧ tagSessionActs lastSeen (p :: ps)
        = [Act.buzzerOn, Act.buzzerOff, Act.haltReader, Act.stopCrypto,
           Act.menu]
    ∧ Act.sosFlowRun ∉ tagSessionActs lastSeen (p :: ps)
    ∧ ((loopSosCheck sosLow2 tMain s).2 = [Act.sosFlowRun]
        ↔ sosLow2 = true ∧ elapsed tMain (s.lastDebounceTime 3) > DEBOUNCE_MS)
    ∧ ((loopSosCheck sosLow2 tMain s).2 = [Act.sosFlowRun] →
        (loopSosCheck sosLow2 tMain s).1.lastDebounceTime 3 = tMain) := by
  have hrun : sessionRun lastSeen (p :: ps) = some ExitReason.sos := by
    show (let ls := if p.readOk then p.tRead else lastSeen
          if elapsed p.tCheck ls > 300 then some ExitReason.timeout
          else if p.sosLow then some ExitReason.sos
          else sessionRun ls ps) = some ExitReason.sos
    simp only
    rw [if_neg hnt, hsos]
    simp
  have hloop : (loopSosCheck sosLow2 tMain s).2 = [Act.sosFlowRun]
      ↔ sosLow2 = true ∧ elapsed tMain (s.lastDebounceTime 3) > DEBOUNCE_MS := by
    cases sosLow2
    · simp [loopSosCheck]
    · by_cases hw : elapsed tMain (s.lastDebounceTime 3) > DEBOUNCE_MS
      · simp [loopSosCheck, hw]
      · simp [loopSosCheck, hw]
  refine ⟨hrun, by rw [tagSessionActs, hrun]; rfl, ?_, hloop, ?_⟩
  · rw [tagSessionActs, hrun]
    decide
  · intro htrig
    obtain ⟨h1, h2⟩ := hloop.mp htrig
    subst h1
    rw [loopSosCheck, if_pos rfl, if_pos h2]
    simp

/-- Witness for `sos_escape_breaks_session_only`: the SOS line low on the
first poll ends the session at once; at the main loop's later check with
the line still low and the window elapsed, the flow starts. -/
theorem sos_escape_breaks_session_only_witness :
    sessionRun 0 [⟨true, 10, 20, true⟩, ⟨false, 0, 350, false⟩]
      = some ExitReason.sos
    ∧ (loopSosCheck true 500 ⟨fun _ => 100, 42⟩).2 = [Act.sosFlowRun] :=
  ⟨(sos_escape_breaks_session_only 0 ⟨true, 10, 20, true⟩
      [⟨false, 0, 350, false⟩] true 500 ⟨fun _ => 100, 42⟩ rfl (by decide)).1,
   (sos_escape_breaks_session_only 0 ⟨true, 10, 20, true⟩
      [⟨false, 0, 350, false⟩] true 500 ⟨fun _ => 100, 42⟩ rfl
      (by decide)).2.2.2.1.mpr ⟨rfl, by decide⟩⟩

/-- C8: startup recognizes exactly the two clock conditions and neither is
fatal: the not-found message is rendered exactly when clock init fails,
the power-loss warning exactly when init succeeds and power loss is
reported; in every case (both failures included) the run never halts,
never resets the clock, and ends by reaching the startup screen and
arming the idle timer, proceeding into the main loop. -/
theorem setup_no_fatal_path :
    ∀ rtcBeginOk lostPower : Bool,
      (SetupAct.msgRtcNotFound ∈ setupRun rtcBeginOk lostPower
        ↔ rtcBeginOk = false)
      ∧ (SetupAct.msgRtcLostPower ∈ setupRun rtcBeginOk lostPower
        ↔ (rtcBeginOk = true ∧ lostPower = true))
      ∧ SetupAct.halt ∉ setupRun rtcBeginOk lostPower
      ∧ SetupAct.rtcAdjust ∉ setupRun rtcBeginOk lostPower
      ∧ (setupRun rtcBeginOk lostPower).getLast?
          = some SetupAct.setLastActivity := by
  decide
